import Mathlib

/-!
Verification of `generate_system_map.py` (bitovi/solutions-architect).

Shallow embedding: Python strings are `List Char` (`Str`), dicts that are only
ever read back by key are association lists, and the network is an oracle
function supplied as an argument.  Python's `re` scans are modelled by the
run/line/position analysis spelled out next to each scanner.  Unicode-specific
behaviour of `str.lower`, `str.strip` and `\w` is modelled at the ASCII level,
which covers every character class the program's regexes accept.
-/

abbrev Str := List Char

def str (s : String) : Str := s.data

/-- Python `str.strip()` whitespace set (ASCII part). -/
def isPySpace (c : Char) : Bool :=
  c = ' ' || c = '\t' || c = '\n' || c = '\r' || c = '\x0b' || c = '\x0c'

/-- Python `str.strip()`: drop whitespace from both ends. -/
def pyStrip (s : Str) : Str :=
  ((s.dropWhile isPySpace).reverse.dropWhile isPySpace).reverse

/-- Python `str.lower()` (ASCII case mapping). -/
def lowerStr (s : Str) : Str := s.map Char.toLower

/-- Regex word character `\w` (ASCII part): letters, digits, underscore. -/
def isWordChar (c : Char) : Bool := c.isAlphanum || c = '_'

/-- Helper for `wordRuns`: single pass with an accumulator of the current
(reversed) run of word characters. -/
def wordRunsGo : List Char → Str → List Str
  | [], acc => if acc.isEmpty then [] else [acc.reverse]
  | c :: cs, acc =>
    if isWordChar c then wordRunsGo cs (c :: acc)
    else if acc.isEmpty then wordRunsGo cs []
    else acc.reverse :: wordRunsGo cs []

/-- Maximal runs of word characters of a text.  A `re` match of
`\b[A-Z][A-Z0-9_]*\b` must start at a run start (the leading `\b` needs a
non-word character or the text start on its left) and must end at the run end
(every position inside a run has word characters on both sides, so the
trailing `\b` only holds at the run end); hence `re.findall` returns exactly
the maximal word runs whose text is entirely `[A-Z][A-Z0-9_]*`. -/
def wordRuns (s : Str) : List Str := wordRunsGo s []

/-- Whether a full word run is matched by `[A-Z][A-Z0-9_]*`. -/
def isEnvToken : Str → Bool
  | [] => false
  | c :: cs => c.isUpper && (c :: cs).all (fun d => d.isUpper || d.isDigit || d = '_')

/-- The keep filter of `extract_env_vars`: exactly `PORT`, or a
`_SERVICE_URL` / `_URL` / `_TOKEN` suffix. -/
def keep_env_name (n : Str) : Bool :=
  n == str "PORT" || (str "_SERVICE_URL").isSuffixOf n
    || (str "_URL").isSuffixOf n || (str "_TOKEN").isSuffixOf n

/-- Evidence dict produced by `make_evidence`. -/
structure Evidence where
  path : Option Str
  snippet : Option Str
deriving DecidableEq

/-- Python `hay.find(needle)` scanning from index `i`. -/
def findSubAux (needle : Str) : Str → Nat → Option Nat
  | [], i => if needle.isEmpty then some i else none
  | hay@(_ :: t), i => if needle.isPrefixOf hay then some i else findSubAux needle t (i + 1)

/-- Python `hay.find(needle)` (as `Option` instead of `-1`). -/
def pyFind (hay needle : Str) : Option Nat := findSubAux needle hay 0

/-- `make_evidence(path, text, needle)` with the default radius 120: snippet of
±120 characters around the first case-insensitive occurrence of `needle`. -/
def make_evidence (path : Option Str) (text : Option Str) (needle : Str) : Evidence :=
  match text with
  | none => { path := path, snippet := none }
  | some t =>
    if needle.isEmpty then { path := path, snippet := none }
    else
      match pyFind (lowerStr t) (lowerStr needle) with
      | none => { path := path, snippet := none }
      | some idx =>
        let start := idx - 120
        let stop := min t.length (idx + needle.length + 120)
        { path := path, snippet := some (pyStrip ((t.drop start).take (stop - start))) }

/-- Python `needle in hay` on strings: substring containment. -/
def containsSub (hay needle : Str) : Bool := (pyFind hay needle).isSome

structure RepoSpec where
  owner : Str
  repo : Str
deriving DecidableEq

def RepoSpec.full_name (s : RepoSpec) : Str := s.owner ++ '/' :: s.repo

/-- `repo_kind_for`: name keywords first, then README keywords, then primary
language, first match wins. -/
def repo_kind_for (spec : RepoSpec) (language : Option Str) (readme_text : Option Str) : Str :=
  let repo_name := lowerStr spec.repo
  if containsSub repo_name (str "test") then str "tests"
  else if containsSub repo_name (str "infra") then str "infra"
  else if containsSub repo_name (str "middleware") || containsSub repo_name (str "sdk") then
    str "library"
  else if containsSub repo_name (str "service") then str "service"
  else
    let readme := lowerStr (readme_text.getD [])
    if containsSub readme (str "microservice") || containsSub readme (str "service") then
      str "service"
    else if containsSub readme (str "library") || containsSub readme (str "middleware") then
      str "library"
    else
      match language with
      | some l =>
        if !l.isEmpty
            && (lowerStr l == str "go" || lowerStr l == str "typescript"
              || lowerStr l == str "javascript" || lowerStr l == str "python") then
          str "service"
        else str "unknown"
      | none => str "unknown"

structure EnvVar where
  name : Str
  confidence : Str
  evidence : Evidence
deriving DecidableEq

/-- The name list of `extract_env_vars`: word runs matched by the regex,
deduplicated (`set`), kept by the suffix filter, then `sorted(set(keep))`. -/
def env_var_names (t : Str) : List Str :=
  (((((wordRuns t).filter isEnvToken).dedup).filter keep_env_name).dedup).insertionSort (· ≤ ·)

/-- `extract_env_vars(readme_path, readme_text)`. -/
def extract_env_vars (readme_path : Option Str) (readme_text : Option Str) : List EnvVar :=
  match readme_text with
  | none => []
  | some t =>
    if (pyStrip t).isEmpty then []
    else
      (env_var_names t).map fun n =>
        { name := n, confidence := str "medium"
          evidence := make_evidence readme_path (some t) n }

structure DependsOn where
  target : Str
  type : Str
  confidence : Str
  evidence : Evidence
deriving DecidableEq

/-- `name[:-len("_SERVICE_URL")].lower().replace("_", "-") + "-service"`. -/
def service_target (name : Str) : Str :=
  (lowerStr (name.take (name.length - 12))).map (fun c => if c = '_' then '-' else c)
    ++ str "-service"

/-- Loop body of `infer_depends_on`, carrying the `seen` set of
`(spec.repo, target)` keys. -/
def infer_depends_on_go (spec : RepoSpec) (readme_path readme_text : Option Str) :
    List EnvVar → List (Str × Str) → List DependsOn
  | [], _ => []
  | env :: rest, seen =>
    if !(str "_SERVICE_URL").isSuffixOf env.name then
      infer_depends_on_go spec readme_path readme_text rest seen
    else
      let target := service_target env.name
      let key := (spec.repo, target)
      if seen.contains key || target == spec.repo then
        infer_depends_on_go spec readme_path readme_text rest seen
      else
        { target := target, type := str "http", confidence := str "medium"
          evidence := make_evidence readme_path readme_text env.name }
          :: infer_depends_on_go spec readme_path readme_text rest (key :: seen)

/-- `infer_depends_on(spec, env_vars, readme_path, readme_text)`. -/
def infer_depends_on (spec : RepoSpec) (env_vars : List EnvVar)
    (readme_path readme_text : Option Str) : List DependsOn :=
  infer_depends_on_go spec readme_path readme_text env_vars []

structure AuthSignal where
  signal : Str
  confidence : Str
  evidence : Evidence
deriving DecidableEq

def auth_markers : List Str :=
  [str "AuthGuard", str "RequireRolesGuard", str "RequireAllRolesGuard", str "@Roles",
    str "@RequireAllRoles", str "AuthMiddleware", str "RequireRoles(", str "RequireAllRoles("]

/-- `extract_auth_signals`: case-insensitive literal substring search for the
fixed marker list. -/
def extract_auth_signals (readme_path readme_text : Option Str) : List AuthSignal :=
  match readme_text with
  | none => []
  | some t =>
    if (pyStrip t).isEmpty then []
    else
      auth_markers.filterMap fun m =>
        if containsSub (lowerStr t) (lowerStr m) then
          some { signal := m, confidence := str "medium"
                 evidence := make_evidence readme_path (some t) m }
        else none

def HTTP_METHODS : List Str :=
  [str "GET", str "POST", str "PUT", str "PATCH", str "DELETE", str "OPTIONS", str "HEAD"]

/-- Character class `[^\s:#]` of the OpenAPI path-line regex. -/
def isOpenapiPathChar (c : Char) : Bool := !isPySpace c && c ≠ ':' && c ≠ '#'

/-- One line against `(?m)^\s{0,4}(/[^\s:#]+):\s*$`.  The `(?m)` anchors make
the pattern line-local: a match must start at a line start, the whitespace
budget of 4 cannot reach the `/` of a line with five or more leading
whitespace characters even through preceding blank lines, and the captured
group never spans a line break since its character class excludes
whitespace. -/
def openapiLineMatch (line : Str) : Option Str :=
  let ws := line.takeWhile isPySpace
  if ws.length ≤ 4 then
    match line.dropWhile isPySpace with
    | '/' :: rest =>
      let seg := rest.takeWhile isOpenapiPathChar
      if seg.isEmpty then none
      else
        match rest.drop seg.length with
        | ':' :: tail => if tail.all isPySpace then some ('/' :: seg) else none
        | _ => none
    | _ => none
  else none

/-- Helper for `splitLines`. -/
def splitLinesGo : List Char → Str → List Str
  | [], acc => [acc.reverse]
  | '\n' :: cs, acc =>
    acc.reverse :: (match cs with | [] => [] | _ :: _ => splitLinesGo cs [])
  | c :: cs, acc => splitLinesGo cs (c :: acc)

/-- Python `str.splitlines()` (newline case; no trailing empty line). -/
def splitLines : Str → List Str
  | [] => []
  | s => splitLinesGo s []

/-- Character class `[-A-Za-z0-9_{}:./]` of the README endpoint regex. -/
def isReadmePathChar (c : Char) : Bool :=
  c = '-' || c.isAlphanum || c = '_' || c = '{' || c = '}' || c = ':' || c = '.' || c = '/'

/-- The backtick character (code point 96). -/
def backtick : Char := Char.ofNat 96

/-- Attempt the README endpoint regex with the match start at the head of `l`
(the leading `\\b` is checked by the caller).  The alternation of HTTP method
keywords is prefix-free, the `\\s+` after the method keyword implies the
trailing `\\b` of the keyword, and the greedy path run cannot backtrack since
its character class excludes whitespace.  `matchAfterMethod` parses what
follows the keyword and returns the captured path with the span length after
the keyword; `matchMethodHere` pairs it with the method. -/
def matchAfterMethod (rest : Str) : Option (Str × Nat) :=
  let ws := rest.takeWhile isPySpace
  if ws.isEmpty then none
  else
    let r1 := rest.drop ws.length
    let tickLen : Nat :=
      match r1 with
      | c :: _ => if c = backtick then 1 else 0
      | [] => 0
    let r2 := r1.drop tickLen
    match r2 with
    | '/' :: r3 =>
      let seg := r3.takeWhile isReadmePathChar
      if seg.isEmpty then none
      else
        let r4 := r3.drop seg.length
        let endTick :=
          match r4 with
          | c :: _ => if c = backtick then 1 else 0
          | [] => 0
        some ('/' :: seg, ws.length + tickLen + 1 + seg.length + endTick)
    | _ => none

def matchMethodHere (l : Str) : Option (Str × Str × Nat) :=
  HTTP_METHODS.findSome? fun m =>
    if m.isPrefixOf l then
      (matchAfterMethod (l.drop m.length)).map fun pr => (m, pr.1, m.length + pr.2)
    else none

/-- `re.finditer` scan for the README endpoint pattern: try each position
left to right, skip over accepted spans (non-overlapping matches), and track
whether the previous character is a word character for the leading `\b`. -/
def scanReadmeGo : Nat → Bool → Str → List (Str × Str)
  | 0, _, _ => []
  | _, _, [] => []
  | fuel + 1, prevWord, l@(c :: cs) =>
    match (if prevWord then none else matchMethodHere l) with
    | some (m, p, span) =>
      (m, p) :: scanReadmeGo fuel (isWordChar ((l.get? (span - 1)).getD ' ')) (l.drop span)
    | none => scanReadmeGo fuel (isWordChar c) cs

def scanReadmeEndpoints (t : Str) : List (Str × Str) := scanReadmeGo t.length false t

structure Endpoint where
  method : Str
  path : Str
  source : Str
  confidence : Str
  evidence : Evidence
deriving DecidableEq

/-- The OpenAPI half of `extract_endpoints`: emit in scan order, skipping
keys already in `seen`; returns the entries and the grown `seen` set. -/
def openapi_entries (openapi_path openapi_text : Option Str) :
    List Str → List (Str × Str) → List Endpoint × List (Str × Str)
  | [], seen => ([], seen)
  | raw :: rest, seen =>
    let path := pyStrip raw
    if path.head? != some '/' then openapi_entries openapi_path openapi_text rest seen
    else
      let key := (str "ANY", path)
      if seen.contains key then openapi_entries openapi_path openapi_text rest seen
      else
        let r := openapi_entries openapi_path openapi_text rest (key :: seen)
        ({ method := str "ANY", path := path, source := str "openapi"
           confidence := str "high"
           evidence := make_evidence openapi_path openapi_text path } :: r.1, r.2)

/-- The README half of `extract_endpoints`, continuing with the `seen` set
left by the OpenAPI scan. -/
def readme_entries (readme_path readme_text : Option Str) :
    List (Str × Str) → List (Str × Str) → List Endpoint × List (Str × Str)
  | [], seen => ([], seen)
  | (m, p) :: rest, seen =>
    if seen.contains (m, p) then readme_entries readme_path readme_text rest seen
    else
      let r := readme_entries readme_path readme_text rest ((m, p) :: seen)
      ({ method := m, path := p, source := str "readme", confidence := str "medium"
         evidence := make_evidence readme_path readme_text (m ++ ' ' :: p) } :: r.1, r.2)

/-- `extract_endpoints(readme_path, readme_text, openapi_path, openapi_text)`. -/
def extract_endpoints (readme_path readme_text openapi_path openapi_text : Option Str) :
    List Endpoint :=
  let raws :=
    match openapi_text with
    | some t => if (pyStrip t).isEmpty then [] else (splitLines t).filterMap openapiLineMatch
    | none => []
  let r1 := openapi_entries openapi_path openapi_text raws []
  let pairs :=
    match readme_text with
    | some t => if (pyStrip t).isEmpty then [] else scanReadmeEndpoints t
    | none => []
  (r1.1 : List Endpoint) ++ (readme_entries readme_path readme_text pairs r1.2).1

/-- The split predicate of `line.split("/", 1)`: characters before the first
slash. -/
def notSlash (c : Char) : Bool := c ≠ '/'

/-- Body of `load_repo_list` over the already-split lines of `repos.txt`. -/
def load_repo_lines : List Str → List RepoSpec
  | [] => []
  | rawLine :: rest =>
    let line := pyStrip rawLine
    if line.isEmpty || line.head? == some '#' then load_repo_lines rest
    else if !line.contains '/' then load_repo_lines rest
    else
      let owner := pyStrip (line.takeWhile notSlash)
      let repo := pyStrip ((line.dropWhile notSlash).drop 1)
      if !owner.isEmpty && !repo.isEmpty then ⟨owner, repo⟩ :: load_repo_lines rest
      else load_repo_lines rest

/-- `load_repo_list` on the text of `repos.txt` (the existence check and the
warning prints are process-level side effects outside the embedding). -/
def load_repo_list (text : Str) : List RepoSpec := load_repo_lines (splitLines text)

/-- Decimal rendering of a natural number (for `http_<status>` codes). -/
def natStr (n : Nat) : Str := (Nat.repr n).data

/-- The two rate-limit headers read by the client. -/
structure RlHeaders where
  remaining : Option Str
  reset : Option Str
deriving DecidableEq

def parseDigits : Str → Option Nat
  | [] => none
  | ds =>
    if ds.all Char.isDigit then
      some (ds.foldl (fun n c => n * 10 + (c.toNat - 48)) 0)
    else none

/-- Python `int(s)` on a plain optionally-signed decimal string (surrounding
whitespace stripped); `none` models the `ValueError` branch. -/
def parseInt (s : Str) : Option Int :=
  match pyStrip s with
  | '-' :: ds => (parseDigits ds).map fun n => -(n : Int)
  | '+' :: ds => (parseDigits ds).map fun n => (n : Int)
  | ds => (parseDigits ds).map fun n => (n : Int)

/-- `handle_rate_limit(status_code, headers)` at wall-clock time `now`,
returned as the list of sleeps it performs (a singleton or empty). -/
def handle_rate_limit (status_code : Nat) (headers : RlHeaders) (now : Int) : List Int :=
  if status_code ≠ 403 then []
  else if headers.remaining == some (str "0") then
    match headers.reset with
    | some r =>
      if r.isEmpty then []
      else
        match parseInt r with
        | some reset_ts => [max 1 (reset_ts - now + 1)]
        | none => []
    | none => []
  else []

/-- One HTTP attempt as seen by `gh_post_json`: a `urllib` network error, or a
response with status, rate-limit headers and body.  `body = none` models a
body that `json.loads` rejects; `body = some a` the parsed JSON value. -/
inductive HttpOutcome (α : Type) where
  | urlError
  | response (status : Nat) (headers : RlHeaders) (body : Option α)
deriving DecidableEq

/-- The attempt loop of `gh_post_json`.  `f a` is the outcome of attempt `a`,
`fuel` the remaining iterations of `range(3)`; the result pairs the returned
`(payload, error)` with the list of every `time.sleep` duration performed. -/
def gh_post_json_go (f : Nat → HttpOutcome α) (now : Int) :
    Nat → Nat → (Option α × Option Str) × List Int
  | 0, _ => ((none, some (str "failed")), [])
  | fuel + 1, a =>
    match f a with
    | .urlError =>
      if a < 2 then
        let r := gh_post_json_go f now fuel (a + 1)
        (r.1, ((1 : Int) + a) :: r.2)
      else ((none, some (str "network_error")), [])
    | .response status headers body =>
      let rlSleeps := if status = 403 then handle_rate_limit status headers now else []
      if status = 403 && headers.remaining == some (str "0") then
        let r := gh_post_json_go f now fuel (a + 1)
        (r.1, rlSleeps ++ r.2)
      else if status = 200 || status = 201 then
        (match body with
          | some j => ((some j, none), rlSleeps)
          | none => ((none, some (str "invalid_json")), rlSleeps))
      else if status = 404 then ((none, some (str "not_found")), rlSleeps)
      else if status = 401 then ((none, some (str "unauthorized")), rlSleeps)
      else if status = 403 then ((none, some (str "forbidden")), rlSleeps)
      else if status ≥ 500 && a < 2 then
        let r := gh_post_json_go f now fuel (a + 1)
        (r.1, rlSleeps ++ ((1 : Int) + a) :: r.2)
      else ((none, some (str "http_" ++ natStr status)), rlSleeps)

/-- `gh_post_json`: up to 3 attempts over the outcome oracle `f`. -/
def gh_post_json (f : Nat → HttpOutcome α) (now : Int) : (Option α × Option Str) × List Int :=
  gh_post_json_go f now 3 0

/-- A GraphQL field-level error: its `path` members (rendered through `str`)
and optional `message`. -/
structure GqlError where
  path : List Str
  message : Option Str
deriving DecidableEq

/-- One repository node of the response `data` block.  `blobs` maps a file
alias to the text `extract_blob_text` recovers for it (`none` when the alias
is missing, null, not an object, or has no string `text`).  The metadata
fields that the script copies verbatim into the record (url, topics, counts,
timestamps, …) do not influence any claim and are not modelled. -/
structure RepoNode where
  nameWithOwner : Option Str
  primaryLanguage : Option Str
  blobs : List (Str × Option Str)
deriving DecidableEq

def extract_blob_text (node : RepoNode) (key : Str) : Option Str :=
  (node.blobs.lookup key).join

/-- The parsed GraphQL payload: the `errors` array and the `data` object
(alias to null-or-node; a missing alias is a missing list key). -/
structure Payload where
  errors : List GqlError
  data : List (Str × Option RepoNode)
deriving DecidableEq

structure FileEntry where
  path : Str
  text : Str
  truncated : Bool
deriving DecidableEq

structure Files where
  readme : Option FileEntry
  codeowners : Option FileEntry
  catalog : Option FileEntry
  openapi : Option FileEntry
deriving DecidableEq

structure Derived where
  repo_kind : Str
  env_vars : List EnvVar
  auth_signals : List AuthSignal
  endpoints : List Endpoint
  depends_on : List DependsOn
deriving DecidableEq

structure RepoRecord where
  full_name : Str
  language : Option Str
  files : Files
  derived : Derived
deriving DecidableEq

/-- A per-repository output record: either the degraded
`{full_name, error}` dict or a full record. -/
inductive Entry where
  | err (full_name : Str) (error : Str)
  | ok (record : RepoRecord)
deriving DecidableEq

/-- `first_present(candidates)`: first candidate whose text is a string. -/
def first_present : List (Str × Option Str) → Option Str × Option Str
  | [] => (none, none)
  | (p, some t) :: _ => (some p, some t)
  | (_, none) :: rest => first_present rest

def TRUNC_LIMIT : Nat := 200000

def truncMarker : Str := str "\n\n[TRUNCATED]\n"

/-- One iteration of the truncation loop (lines 551-557): texts longer than
200,000 characters are cut and marked. -/
def truncate_file : Option FileEntry → Option FileEntry
  | none => none
  | some f =>
    if f.text.length > TRUNC_LIMIT then
      some { f with text := f.text.take TRUNC_LIMIT ++ truncMarker, truncated := true }
    else some f

/-- `{"path": p, "text": t} if t else None` (a file dict is only created for
truthy text; `truncated` starts absent, i.e. `false`). -/
def mk_file (p : Option Str) (t : Option Str) : Option FileEntry :=
  match t with
  | none => none
  | some tt =>
    if tt.isEmpty then none
    else some { path := p.getD [], text := tt, truncated := false }

/-- The per-repository body of `get_repo_bundle_graphql` (lines 469-559):
candidate selection, heuristic extraction from the untruncated texts, record
assembly, then the truncation loop over the files map. -/
def build_repo_entry (spec : RepoSpec) (node : RepoNode) : RepoRecord :=
  let readme_c :=
    [(str "README.md", extract_blob_text node (str "readme_md")),
      (str "README.rst", extract_blob_text node (str "readme_rst")),
      (str "README.txt", extract_blob_text node (str "readme_txt"))]
  let codeowners_c :=
    [(str "CODEOWNERS", extract_blob_text node (str "codeowners_root")),
      (str ".github/CODEOWNERS", extract_blob_text node (str "codeowners_gh"))]
  let catalog_c :=
    [(str "catalog-info.yaml", extract_blob_text node (str "catalog_yaml")),
      (str "catalog-info.yml", extract_blob_text node (str "catalog_yml"))]
  let openapi_c :=
    [(str "openapi.yaml", extract_blob_text node (str "openapi_yaml")),
      (str "openapi.yml", extract_blob_text node (str "openapi_yml")),
      (str "swagger.yaml", extract_blob_text node (str "swagger_yaml")),
      (str "swagger.yml", extract_blob_text node (str "swagger_yml")),
      (str "api/openapi.yaml", extract_blob_text node (str "api_openapi_yaml")),
      (str "api/openapi.yml", extract_blob_text node (str "api_openapi_yml")),
      (str "api/swagger.yaml", extract_blob_text node (str "api_swagger_yaml")),
      (str "api/swagger.yml", extract_blob_text node (str "api_swagger_yml"))]
  let rp := first_present readme_c
  let cp := first_present codeowners_c
  let gp := first_present catalog_c
  let op := first_present openapi_c
  let env_vars := extract_env_vars rp.1 rp.2
  let depends_on := infer_depends_on spec env_vars rp.1 rp.2
  let auth_signals := extract_auth_signals rp.1 rp.2
  let endpoints := extract_endpoints rp.1 rp.2 op.1 op.2
  let repo_kind := repo_kind_for spec node.primaryLanguage rp.2
  let files0 : Files :=
    { readme := mk_file rp.1 rp.2, codeowners := mk_file cp.1 cp.2
      catalog := mk_file gp.1 gp.2, openapi := mk_file op.1 op.2 }
  { full_name := node.nameWithOwner.getD spec.full_name
    language := node.primaryLanguage
    files :=
      { readme := truncate_file files0.readme
        codeowners := truncate_file files0.codeowners
        catalog := truncate_file files0.catalog
        openapi := truncate_file files0.openapi }
    derived :=
      { repo_kind := repo_kind, env_vars := env_vars, auth_signals := auth_signals
        endpoints := endpoints, depends_on := depends_on } }

def alias_for (i : Nat) : Str := 'r' :: natStr i

/-- `errors_by_alias`: first path segment keys the message; a later error for
the same alias overwrites (newest binding is pushed to the front, and reads
use first-match lookup). -/
def errors_by_alias_go (acc : List (Str × Str)) : List GqlError → List (Str × Str)
  | [] => acc
  | e :: rest =>
    match e.path with
    | [] => errors_by_alias_go acc rest
    | a :: _ =>
      let msg :=
        match e.message with
        | some m => if m.isEmpty then str "graphql_error" else m
        | none => str "graphql_error"
      errors_by_alias_go ((a, msg) :: acc) rest

def errors_by_alias (es : List GqlError) : List (Str × Str) := errors_by_alias_go [] es

/-- Python `err or "unknown"`. -/
def errVal (e : Option Str) : Str :=
  match e with
  | some s => if s.isEmpty then str "unknown" else s
  | none => str "unknown"

/-- The all-error dict produced when the batched call fails as a unit. -/
def repo_error_dict (specs : List RepoSpec) (e : Str) : List (Str × Entry) :=
  specs.foldl (fun acc spec => (spec.full_name, Entry.err spec.full_name e) :: acc) []

/-- `get_repo_bundle_graphql` given the `(payload, err)` pair returned by
`gh_post_json` for the batch.  `fetch.1 = some (some p)` is a JSON object
payload, `some none` a non-dict JSON value, `none` no payload.  The output
dict is an association list whose newest binding sits at the front, read back
only by `lookup`. -/
def get_repo_bundle_graphql (fetch : Option (Option Payload) × Option Str)
    (specs : List RepoSpec) : List (Str × Entry) :=
  let errTruthy := match fetch.2 with | some e => !e.isEmpty | none => false
  match fetch.1, errTruthy with
  | some (some payload), false =>
    let errs := errors_by_alias payload.errors
    specs.enum.foldl
      (fun acc is =>
        let al := alias_for is.1
        let spec := is.2
        let entry :=
          match errs.lookup al with
          | some msg => Entry.err spec.full_name msg
          | none =>
            match payload.data.lookup al with
            | some (some node) => Entry.ok (build_repo_entry spec node)
            | _ => Entry.err spec.full_name (str "not_found")
        (spec.full_name, entry) :: acc)
      []
  | _, _ => repo_error_dict specs (errVal fetch.2)

/-- Batching of the spec list: `range(0, len(specs), batch_size)` slices.
Fuel is the list length; a zero batch size (which would make the Python
`range` raise) yields no batches. -/
def chunksAux (n : Nat) : Nat → List α → List (List α)
  | _, [] => []
  | 0, _ :: _ => []
  | fuel + 1, l@(_ :: _) => l.take n :: chunksAux n fuel (l.drop n)

def chunks (n : Nat) (l : List α) : List (List α) := chunksAux n l.length l

/-- The `repos` list assembled by `main`: one batched fetch per chunk, then
one appended entry per spec, looked up by full name with the
`{"full_name": ..., "error": "unknown"}` default. -/
def main_repos (fetch : List RepoSpec → Option (Option Payload) × Option Str)
    (batch_size : Nat) (specs : List RepoSpec) : List Entry :=
  (chunks batch_size specs).flatMap fun chunk =>
    chunk.map fun spec =>
      ((get_repo_bundle_graphql (fetch chunk) chunk).lookup spec.full_name).getD
        (Entry.err spec.full_name (str "unknown"))

/-! ## Helper lemmas -/

theorem isWordChar_eq_false_of_isPySpace {c : Char} (h : isPySpace c = true) :
    isWordChar c = false := by
  simp only [isPySpace, Bool.or_eq_true, decide_eq_true_eq] at h
  rcases h with ((((h | h) | h) | h) | h) | h <;> subst h <;> decide

theorem dropWhile_eq_self_of_all {p : Char → Bool} {l : Str} (h : ∀ c ∈ l, p c = false) :
    l.dropWhile p = l := by
  cases l with
  | nil => rfl
  | cons a t => simp [List.dropWhile_cons, h a (List.mem_cons_self a t)]

theorem pyStrip_eq_self_of_all {l : Str} (h : ∀ c ∈ l, isPySpace c = false) : pyStrip l = l := by
  unfold pyStrip
  rw [dropWhile_eq_self_of_all h, dropWhile_eq_self_of_all, List.reverse_reverse]
  intro c hc
  exact h c (List.mem_reverse.mp hc)

theorem mem_of_mem_pyStrip {c : Char} {l : Str} (h : c ∈ pyStrip l) : c ∈ l := by
  unfold pyStrip at h
  rw [List.mem_reverse] at h
  have h2 := (List.dropWhile_sublist isPySpace).subset h
  rw [List.mem_reverse] at h2
  exact (List.dropWhile_sublist isPySpace).subset h2

theorem all_space_of_pyStrip_eq_nil {l : Str} (h : pyStrip l = []) :
    ∀ c ∈ l, isPySpace c = true := by
  unfold pyStrip at h
  rw [List.reverse_eq_nil_iff, List.dropWhile_eq_nil_iff] at h
  intro c hc
  rcases List.mem_append.mp ((List.takeWhile_append_dropWhile isPySpace l) ▸ hc) with h1 | h1
  · exact List.mem_takeWhile_imp h1
  · exact h c (List.mem_reverse.mpr h1)

theorem wordRunsGo_eq_nil_of_all_space {l : Str} (h : ∀ c ∈ l, isPySpace c = true) :
    wordRunsGo l [] = [] := by
  induction l with
  | nil => rfl
  | cons a t ih =>
    have ha := isWordChar_eq_false_of_isPySpace (h a (List.mem_cons_self a t))
    simp only [wordRunsGo, ha, Bool.false_eq_true, if_false, List.isEmpty_nil, if_true]
    exact ih fun c hc => h c (List.mem_cons_of_mem a hc)

theorem dropWhile_space_replicate (n : Nat) (s : Str) :
    (List.replicate n ' ' ++ s).dropWhile isPySpace = s.dropWhile isPySpace := by
  induction n with
  | zero => simp
  | succ m ih => simpa [List.replicate_succ, List.dropWhile_cons] using ih

theorem pyStrip_replicate_space (n : Nat) (s : Str) :
    pyStrip (List.replicate n ' ' ++ s) = pyStrip s := by
  unfold pyStrip
  rw [dropWhile_space_replicate]

theorem wordRuns_replicate_space (n : Nat) (s : Str) :
    wordRuns (List.replicate n ' ' ++ s) = wordRuns s := by
  induction n with
  | zero => simp [wordRuns]
  | succ m ih =>
    unfold wordRuns at ih ⊢
    simpa [List.replicate_succ, wordRunsGo] using ih

/-! ## C5: repo-kind classification and the "infra" rule -/

/-- C5 counterexample: the repository name `payments-infra-test` contains
`infra`, yet classification returns `tests`, because the `test` name rule is
checked before the `infra` rule; so "name contains infra ⇒ repo_kind = infra
regardless of README and language" is false as stated. -/
theorem repo_kind_infra_counterexample :
    containsSub (lowerStr (str "payments-infra-test")) (str "infra") = true
    ∧ repo_kind_for ⟨str "acme", str "payments-infra-test"⟩ none none = str "tests"
    ∧ str "tests" ≠ str "infra" := by decide

/-- C5 amended: if the lowercased repository name contains `infra` and does
not contain `test`, classification returns `infra`, regardless of the README
content and the primary language. -/
theorem repo_kind_infra_amended (spec : RepoSpec) (language readme_text : Option Str)
    (hinfra : containsSub (lowerStr spec.repo) (str "infra") = true)
    (htest : containsSub (lowerStr spec.repo) (str "test") = false) :
    repo_kind_for spec language readme_text = str "infra" := by
  simp [repo_kind_for, hinfra, htest]

/-- C5 amended, witnessed on a concrete repository whose README and language
would otherwise classify it as a service. -/
theorem repo_kind_infra_amended_witness :
    repo_kind_for ⟨str "acme", str "core-infra"⟩ (some (str "Go")) (some (str "a service"))
      = str "infra" :=
  repo_kind_infra_amended ⟨str "acme", str "core-infra"⟩ (some (str "Go"))
    (some (str "a service")) (by decide) (by decide)

/-! ## C7: truncation of stored file texts -/

/-- C7: a file text longer than 200,000 characters is stored as exactly its
first 200,000 characters plus the truncation marker with `truncated` set; a
text of length at most 200,000 is stored unchanged with no flag set. -/
theorem truncate_file_spec (f : FileEntry) :
    (f.text.length > TRUNC_LIMIT →
        truncate_file (some f)
          = some { path := f.path, text := f.text.take TRUNC_LIMIT ++ truncMarker
                   truncated := true })
    ∧ (f.text.length ≤ TRUNC_LIMIT → truncate_file (some f) = some f) := by
  constructor
  · intro h
    simp [truncate_file, h]
  · intro h
    simp [truncate_file, Nat.not_lt.mpr h]

/-- C7 witnessed at a 200,001-character text (truncated and marked) and a
2-character text (returned untouched). -/
theorem truncate_file_spec_witness :
    truncate_file (some ⟨str "README.md", List.replicate 200001 'a', false⟩)
      = some ⟨str "README.md", List.replicate 200000 'a' ++ truncMarker, true⟩
    ∧ truncate_file (some ⟨str "openapi.yaml", str "hi", false⟩)
      = some ⟨str "openapi.yaml", str "hi", false⟩ := by
  constructor
  · have h := (truncate_file_spec ⟨str "README.md", List.replicate 200001 'a', false⟩).1
      (by show (List.replicate 200001 'a').length > TRUNC_LIMIT
          rw [List.length_replicate]; decide)
    rw [h]
    show some (⟨str "README.md", (List.replicate 200001 'a').take TRUNC_LIMIT ++ truncMarker,
      true⟩ : FileEntry) = _
    rw [List.take_replicate, show min TRUNC_LIMIT 200001 = 200000 from by decide]
  · exact (truncate_file_spec ⟨str "openapi.yaml", str "hi", false⟩).2 (by
      show (str "hi").length ≤ TRUNC_LIMIT
      decide)
/-! ## C8: dependency inference emits no self-loop and no duplicate pair -/

/-- Invariant of the `infer_depends_on` loop: every emitted target is new with
respect to `seen`, never equals the repo name, and the emitted targets are
pairwise distinct. -/
theorem infer_go_nodup (spec : RepoSpec) (rp rt : Option Str) :
    ∀ (envs : List EnvVar) (seen : List (Str × Str)),
      (∀ t ∈ (infer_depends_on_go spec rp rt envs seen).map DependsOn.target,
          (spec.repo, t) ∉ seen ∧ t ≠ spec.repo)
      ∧ ((infer_depends_on_go spec rp rt envs seen).map DependsOn.target).Nodup := by
  intro envs
  induction envs with
  | nil =>
    intro seen
    constructor
    · intro t ht
      simp [infer_depends_on_go] at ht
    · simp [infer_depends_on_go]
  | cons env rest ih =>
    intro seen
    by_cases h1 : (str "_SERVICE_URL").isSuffixOf env.name
    · by_cases h2 : (spec.repo, service_target env.name) ∈ seen
        ∨ service_target env.name = spec.repo
      · have step : infer_depends_on_go spec rp rt (env :: rest) seen
            = infer_depends_on_go spec rp rt rest seen := by
          simp [infer_depends_on_go, h1, h2]
        rw [step]; exact ih seen
      · rw [not_or] at h2
        obtain ⟨hnotmem, hne⟩ := h2
        have step : infer_depends_on_go spec rp rt (env :: rest) seen
            = { target := service_target env.name, type := str "http"
                confidence := str "medium"
                evidence := make_evidence rp rt env.name }
              :: infer_depends_on_go spec rp rt rest
                  ((spec.repo, service_target env.name) :: seen) := by
          simp [infer_depends_on_go, h1, hnotmem, hne]
        rw [step]
        obtain ⟨ih1, ih2⟩ := ih ((spec.repo, service_target env.name) :: seen)
        constructor
        · intro t ht
          rcases List.mem_cons.mp ht with rfl | ht'
          · exact ⟨hnotmem, hne⟩
          · obtain ⟨hn, hne'⟩ := ih1 t ht'
            exact ⟨fun hmem => hn (List.mem_cons_of_mem _ hmem), hne'⟩
        · rw [List.map_cons, List.nodup_cons]
          refine ⟨fun hmem => ?_, ih2⟩
          exact (ih1 _ hmem).1 (List.mem_cons_self _ _)
    · have step : infer_depends_on_go spec rp rt (env :: rest) seen
          = infer_depends_on_go spec rp rt rest seen := by
        simp [infer_depends_on_go, h1]
      rw [step]; exact ih seen

/-- C8: for every repository spec and extracted environment-variable list,
dependency inference never emits a target equal to the current repo name (no
self-loop) and never emits two edges with the same (repo, target) pair, i.e.
the emitted targets are pairwise distinct. -/
theorem infer_depends_on_spec (spec : RepoSpec) (env_vars : List EnvVar)
    (readme_path readme_text : Option Str) :
    ((infer_depends_on spec env_vars readme_path readme_text).map DependsOn.target).Nodup
    ∧ spec.repo ∉ (infer_depends_on spec env_vars readme_path readme_text).map
        DependsOn.target := by
  obtain ⟨h1, h2⟩ := infer_go_nodup spec readme_path readme_text env_vars []
  exact ⟨h2, fun hmem => (h1 _ hmem).2 rfl⟩

/-- C8 witnessed on a repo whose README would yield the duplicate and
self-referential candidates `billing-service` (twice) and `acme-service`. -/
theorem infer_depends_on_spec_witness :
    ((infer_depends_on ⟨str "x", str "acme-service"⟩
        (extract_env_vars (some (str "README.md"))
          (some (str "BILLING_SERVICE_URL ACME_SERVICE_URL BILLING_SERVICE_URL")))
        (some (str "README.md"))
        (some (str "BILLING_SERVICE_URL ACME_SERVICE_URL BILLING_SERVICE_URL"))).map
        DependsOn.target).Nodup
    ∧ str "acme-service" ∉ ((infer_depends_on ⟨str "x", str "acme-service"⟩
        (extract_env_vars (some (str "README.md"))
          (some (str "BILLING_SERVICE_URL ACME_SERVICE_URL BILLING_SERVICE_URL")))
        (some (str "README.md"))
        (some (str "BILLING_SERVICE_URL ACME_SERVICE_URL BILLING_SERVICE_URL"))).map
        DependsOn.target) :=
  infer_depends_on_spec ⟨str "x", str "acme-service"⟩ _ _ _
/-! ## C2: environment-variable extraction -/

/-- Sortedness of the insertion sort used for `sorted(...)`. -/
theorem env_var_names_sorted (t : Str) : (env_var_names t).Sorted (· ≤ ·) :=
  List.sorted_insertionSort _ _

theorem env_var_names_nodup (t : Str) : (env_var_names t).Nodup :=
  (List.perm_insertionSort _ _).nodup_iff.mpr (List.nodup_dedup _)

theorem mem_env_var_names (t : Str) (n : Str) :
    n ∈ env_var_names t ↔ n ∈ wordRuns t ∧ isEnvToken n = true ∧ keep_env_name n = true := by
  unfold env_var_names
  rw [(List.perm_insertionSort _ _).mem_iff, List.mem_dedup, List.mem_filter,
    List.mem_dedup, List.mem_filter]
  tauto

/-- The name column of `extract_env_vars` is `env_var_names` (when the text is
entirely whitespace both sides are empty, since whitespace contains no word
character). -/
theorem extract_env_vars_names (p : Option Str) (t : Str) :
    (extract_env_vars p (some t)).map EnvVar.name = env_var_names t := by
  have he : extract_env_vars p (some t)
      = if (pyStrip t).isEmpty then []
        else (env_var_names t).map fun n =>
          { name := n, confidence := str "medium"
            evidence := make_evidence p (some t) n } := rfl
  rw [he]
  by_cases h : (pyStrip t).isEmpty
  · rw [if_pos h]
    have hsp := all_space_of_pyStrip_eq_nil (List.isEmpty_iff.mp h)
    have hw : wordRuns t = [] := wordRunsGo_eq_nil_of_all_space hsp
    unfold env_var_names
    rw [hw]
    rfl
  · rw [if_neg h, List.map_map]
    have hcomp : (EnvVar.name ∘ fun n =>
        ({ name := n, confidence := str "medium"
           evidence := make_evidence p (some t) n } : EnvVar)) = id := funext fun n => rfl
    rw [hcomp, List.map_id]

/-- C2: environment-variable extraction returns the lexicographically sorted,
duplicate-free list of exactly those maximal `\w`-runs matching
`[A-Z][A-Z0-9_]*` that pass the PORT / `_SERVICE_URL` / `_URL` / `_TOKEN`
filter; the result depends only on that token set, so running the extraction
twice on the same text (or on any text with the same matched-token set, in
any order of occurrence) yields the identical sorted list. -/
theorem extract_env_vars_spec (p : Option Str) (t : Str) :
    ((extract_env_vars p (some t)).map EnvVar.name).Sorted (· ≤ ·)
    ∧ ((extract_env_vars p (some t)).map EnvVar.name).Nodup
    ∧ (∀ n, n ∈ (extract_env_vars p (some t)).map EnvVar.name ↔
        n ∈ wordRuns t ∧ isEnvToken n = true ∧ keep_env_name n = true)
    ∧ (∀ (p₂ : Option Str) (t₂ : Str),
        (∀ n, (n ∈ wordRuns t ∧ isEnvToken n = true ∧ keep_env_name n = true)
          ↔ (n ∈ wordRuns t₂ ∧ isEnvToken n = true ∧ keep_env_name n = true)) →
        (extract_env_vars p (some t)).map EnvVar.name
          = (extract_env_vars p₂ (some t₂)).map EnvVar.name) := by
  simp only [extract_env_vars_names]
  refine ⟨env_var_names_sorted t, env_var_names_nodup t, fun n => mem_env_var_names t n, ?_⟩
  intro p₂ t₂ hset
  apply List.eq_of_perm_of_sorted ?_ (env_var_names_sorted t) (env_var_names_sorted t₂)
  rw [List.perm_ext_iff_of_nodup (env_var_names_nodup t) (env_var_names_nodup t₂)]
  intro n
  rw [mem_env_var_names, mem_env_var_names]
  exact hset n

/-- C2 witnessed on two texts carrying the same tokens in opposite order (and
different whitespace): the extracted name lists coincide. -/
theorem extract_env_vars_spec_witness :
    (extract_env_vars none (some (str "B_URL A_URL"))).map EnvVar.name
      = (extract_env_vars (some (str "README.md")) (some (str "A_URL, B_URL!"))).map
          EnvVar.name :=
  (extract_env_vars_spec none (str "B_URL A_URL")).2.2.2 (some (str "README.md"))
    (str "A_URL, B_URL!") (by
      have h1 : wordRuns (str "B_URL A_URL") = [str "B_URL", str "A_URL"] := by decide
      have h2 : wordRuns (str "A_URL, B_URL!") = [str "A_URL", str "B_URL"] := by decide
      intro n
      rw [h1, h2]
      simp only [List.mem_cons, List.not_mem_nil, or_false]
      tauto)
/-! ## C4: endpoint extraction and (method, path) deduplication -/

/-- The dedup key of an endpoint entry. -/
def ep_key (e : Endpoint) : Str × Str := (e.method, e.path)

/-- A successful README endpoint match reports one of the seven HTTP method
keywords. -/
theorem matchMethodHere_method {l m p : Str} {n : Nat}
    (h : matchMethodHere l = some (m, p, n)) : m ∈ HTTP_METHODS := by
  unfold matchMethodHere at h
  obtain ⟨m₀, hm₀, hf⟩ := List.exists_of_findSome?_eq_some h
  by_cases hp : m₀.isPrefixOf l
  · rw [if_pos hp] at hf
    obtain ⟨pr, _, he⟩ := Option.map_eq_some'.mp hf
    obtain ⟨he1, -⟩ := Prod.mk.injEq .. ▸ he
    exact he1 ▸ hm₀
  · rw [if_neg hp] at hf
    exact absurd hf (by simp)

/-- Every pair produced by the README scan carries an HTTP method keyword. -/
theorem scanReadmeGo_methods :
    ∀ (fuel : Nat) (pw : Bool) (l : Str) (pr : Str × Str),
      pr ∈ scanReadmeGo fuel pw l → pr.1 ∈ HTTP_METHODS := by
  intro fuel
  induction fuel with
  | zero => intro pw l pr hpr; simp [scanReadmeGo] at hpr
  | succ fu ih =>
    intro pw l pr hpr
    cases l with
    | nil => simp [scanReadmeGo] at hpr
    | cons c cs =>
      rw [scanReadmeGo] at hpr
      split at hpr
      · rename_i m0 p0 span0 heq
        rcases List.mem_cons.mp hpr with rfl | h'
        · by_cases hpw : pw
          · rw [if_pos hpw] at heq; exact absurd heq (by simp)
          · rw [if_neg hpw] at heq
            exact matchMethodHere_method heq
        · exact ih _ _ _ h'
      · exact ih _ _ _ hpr

/-- Invariant of the OpenAPI half of the dedup fold: emitted keys are
pairwise distinct and new w.r.t. `seen`, the final `seen` is `seen` plus the
emitted keys, and every entry is an `ANY`-method `openapi`-source entry. -/
theorem openapi_entries_spec (op ot : Option Str) :
    ∀ (raws : List Str) (seen : List (Str × Str)),
      ((openapi_entries op ot raws seen).1.map ep_key).Nodup
      ∧ (∀ k ∈ (openapi_entries op ot raws seen).1.map ep_key, k ∉ seen)
      ∧ (∀ k, k ∈ (openapi_entries op ot raws seen).2
          ↔ k ∈ seen ∨ k ∈ (openapi_entries op ot raws seen).1.map ep_key)
      ∧ (∀ e ∈ (openapi_entries op ot raws seen).1,
          e.method = str "ANY" ∧ e.source = str "openapi") := by
  intro raws
  induction raws with
  | nil =>
    intro seen
    refine ⟨by simp [openapi_entries], ?_, ?_, ?_⟩
    · intro k hk; simp [openapi_entries] at hk
    · intro k; simp [openapi_entries]
    · intro e he; simp [openapi_entries] at he
  | cons raw rest ih =>
    intro seen
    by_cases hhd : (pyStrip raw).head? = some '/'
    · by_cases hseen : (str "ANY", pyStrip raw) ∈ seen
      · have step : openapi_entries op ot (raw :: rest) seen
            = openapi_entries op ot rest seen := by
          simp [openapi_entries, hhd, hseen]
        rw [step]; exact ih seen
      · have step : openapi_entries op ot (raw :: rest) seen
            = ({ method := str "ANY", path := pyStrip raw, source := str "openapi"
                 confidence := str "high"
                 evidence := make_evidence op ot (pyStrip raw) }
                :: (openapi_entries op ot rest ((str "ANY", pyStrip raw) :: seen)).1,
               (openapi_entries op ot rest ((str "ANY", pyStrip raw) :: seen)).2) := by
          simp [openapi_entries, hhd, hseen]
        obtain ⟨ih1, ih2, ih3, ih4⟩ := ih ((str "ANY", pyStrip raw) :: seen)
        rw [step]
        refine ⟨?_, ?_, ?_, ?_⟩
        · rw [List.map_cons, List.nodup_cons]
          refine ⟨fun hmem => ?_, ih1⟩
          exact (ih2 _ hmem) (List.mem_cons_self _ _)
        · intro k hk
          rcases List.mem_cons.mp hk with rfl | hk'
          · exact hseen
          · exact fun hmem => (ih2 k hk') (List.mem_cons_of_mem _ hmem)
        · intro k
          rw [ih3 k]
          simp only [List.map_cons, List.mem_cons]
          constructor
          · rintro (⟨rfl | hs⟩ | ho)
            · exact Or.inr (Or.inl rfl)
            · exact Or.inl hs
            · exact Or.inr (Or.inr ho)
          · rintro (hs | (rfl | ho))
            · exact Or.inl (Or.inr hs)
            · exact Or.inl (Or.inl rfl)
            · exact Or.inr ho
        · intro e he
          rcases List.mem_cons.mp he with rfl | he'
          · exact ⟨rfl, rfl⟩
          · exact ih4 e he'
    · have step : openapi_entries op ot (raw :: rest) seen
          = openapi_entries op ot rest seen := by
        simp [openapi_entries, hhd]
      rw [step]; exact ih seen

/-- Invariant of the README half of the dedup fold: emitted keys are pairwise
distinct and new w.r.t. `seen`, and every entry is a `readme`-source entry
whose (method, path) pair comes from the scanned items. -/
theorem readme_entries_spec (rp rt : Option Str) :
    ∀ (items : List (Str × Str)) (seen : List (Str × Str)),
      ((readme_entries rp rt items seen).1.map ep_key).Nodup
      ∧ (∀ k ∈ (readme_entries rp rt items seen).1.map ep_key, k ∉ seen)
      ∧ (∀ e ∈ (readme_entries rp rt items seen).1,
          e.source = str "readme" ∧ (e.method, e.path) ∈ items) := by
  intro items
  induction items with
  | nil =>
    intro seen
    refine ⟨by simp [readme_entries], ?_, ?_⟩
    · intro k hk; simp [readme_entries] at hk
    · intro e he; simp [readme_entries] at he
  | cons pr rest ih =>
    intro seen
    obtain ⟨m, p⟩ := pr
    by_cases hseen : (m, p) ∈ seen
    · have step : readme_entries rp rt ((m, p) :: rest) seen
          = readme_entries rp rt rest seen := by
        simp [readme_entries, hseen]
      rw [step]
      obtain ⟨ih1, ih2, ih3⟩ := ih seen
      exact ⟨ih1, ih2, fun e he =>
        ⟨(ih3 e he).1, List.mem_cons_of_mem _ (ih3 e he).2⟩⟩
    · have step : readme_entries rp rt ((m, p) :: rest) seen
          = ({ method := m, path := p, source := str "readme", confidence := str "medium"
               evidence := make_evidence rp rt (m ++ ' ' :: p) }
              :: (readme_entries rp rt rest ((m, p) :: seen)).1,
             (readme_entries rp rt rest ((m, p) :: seen)).2) := by
        simp [readme_entries, hseen]
      obtain ⟨ih1, ih2, ih3⟩ := ih ((m, p) :: seen)
      rw [step]
      refine ⟨?_, ?_, ?_⟩
      · rw [List.map_cons, List.nodup_cons]
        refine ⟨fun hmem => ?_, ih1⟩
        exact (ih2 _ hmem) (List.mem_cons_self _ _)
      · intro k hk
        rcases List.mem_cons.mp hk with rfl | hk'
        · exact hseen
        · exact fun hmem => (ih2 k hk') (List.mem_cons_of_mem _ hmem)
      · intro e he
        rcases List.mem_cons.mp he with rfl | he'
        · exact ⟨rfl, List.mem_cons_self _ _⟩
        · exact ⟨(ih3 e he').1, List.mem_cons_of_mem _ (ih3 e he').2⟩

/-- C4 amended: the merged endpoint list is deduplicated by exact
(method, path) keys — no two entries share a key — but the two scans can
never produce the same key for the same documented endpoint, because every
OpenAPI-sourced entry carries method `ANY` while every README-sourced entry
carries a concrete HTTP verb; an endpoint appearing in both texts therefore
yields two entries (one `ANY`, one verb-specific), and dedup collapses
repeats only within each scan (first seen wins, the OpenAPI scan running
first). -/
theorem extract_endpoints_amended (rp rt op ot : Option Str) :
    ((extract_endpoints rp rt op ot).map ep_key).Nodup
    ∧ (∀ e ∈ extract_endpoints rp rt op ot,
        (e.source = str "openapi" → e.method = str "ANY")
        ∧ (e.source = str "readme" → e.method ∈ HTTP_METHODS)) := by
  have he : extract_endpoints rp rt op ot
      = (openapi_entries op ot
          (match ot with
            | some t => if (pyStrip t).isEmpty then []
                else (splitLines t).filterMap openapiLineMatch
            | none => []) []).1
        ++ (readme_entries rp rt
            (match rt with
              | some t => if (pyStrip t).isEmpty then [] else scanReadmeEndpoints t
              | none => [])
            (openapi_entries op ot
              (match ot with
                | some t => if (pyStrip t).isEmpty then []
                    else (splitLines t).filterMap openapiLineMatch
                | none => []) []).2).1 := rfl
  set raws := (match ot with
    | some t => if (pyStrip t).isEmpty then []
        else (splitLines t).filterMap openapiLineMatch
    | none => []) with hraws
  set pairs := (match rt with
    | some t => if (pyStrip t).isEmpty then [] else scanReadmeEndpoints t
    | none => []) with hpairs
  obtain ⟨o1, o2, o3, o4⟩ := openapi_entries_spec op ot raws []
  obtain ⟨r1, r2, r3⟩ := readme_entries_spec rp rt pairs (openapi_entries op ot raws []).2
  have hpm : ∀ pr ∈ pairs, (pr : Str × Str).1 ∈ HTTP_METHODS := by
    intro pr hpr
    rw [hpairs] at hpr
    cases rt with
    | none => exact absurd (show pr ∈ ([] : List (Str × Str)) from hpr) (by simp)
    | some t =>
      have hpr2 : pr ∈ (if (pyStrip t).isEmpty then [] else scanReadmeEndpoints t) := hpr
      by_cases hstrip : (pyStrip t).isEmpty
      · rw [if_pos hstrip] at hpr2
        exact absurd hpr2 (by simp)
      · rw [if_neg hstrip] at hpr2
        exact scanReadmeGo_methods _ _ _ _ hpr2
  constructor
  · rw [he, List.map_append, List.nodup_append]
    refine ⟨o1, r1, ?_⟩
    intro k hk1 hk2
    exact (r2 k hk2) ((o3 k).mpr (Or.inr hk1))
  · intro e hee
    rw [he] at hee
    rcases List.mem_append.mp hee with h1 | h2
    · refine ⟨fun _ => (o4 e h1).1, fun hsrc => ?_⟩
      exact absurd ((o4 e h1).2.symm.trans hsrc) (by decide)
    · refine ⟨fun hsrc => ?_, fun _ => ?_⟩
      · exact absurd ((r3 e h2).1.symm.trans hsrc) (by decide)
      · exact hpm _ ((r3 e h2).2)

/-- C4 counterexample: the same documented endpoint `/users`, fed once
through OpenAPI-style text and once through README-style text, yields two
entries — key `(ANY, /users)` from the OpenAPI scan and key `(GET, /users)`
from the README scan — not one, refuting "exactly one endpoint entry is
produced with the OpenAPI entry winning". -/
theorem extract_endpoints_counterexample :
    ((extract_endpoints (some (str "README.md")) (some (str "GET /users"))
        (some (str "openapi.yaml")) (some (str "/users:\n"))).map
        (fun e => (e.method, e.path)))
      = [(str "ANY", str "/users"), (str "GET", str "/users")]
    ∧ (extract_endpoints (some (str "README.md")) (some (str "GET /users"))
        (some (str "openapi.yaml")) (some (str "/users:\n"))).length ≠ 1 := by decide

/-- C4 amended, witnessed: deduplicated keys on a text pair exercising both
scans. -/
theorem extract_endpoints_amended_witness :
    ((extract_endpoints (some (str "r")) (some (str "GET /a GET /a"))
        none (some (str "/a:\n/a:\n"))).map ep_key).Nodup :=
  (extract_endpoints_amended (some (str "r")) (some (str "GET /a GET /a"))
    none (some (str "/a:\n/a:\n"))).1
/-! ## C6: repository-list loader -/

/-- C6 counterexample: the line `a/b/c` has more than one `/`, which the
claim says must be skipped with no RepoSpec produced; the loader in fact
splits at the first `/` only and produces the spec `(a, b/c)`. -/
theorem load_repo_list_counterexample :
    load_repo_list (str "a/b/c\n") = [⟨str "a", str "b/c"⟩]
    ∧ (load_repo_list (str "a/b/c\n")).length = 1 := by decide

theorem takeWhile_append_all {p : Char → Bool} :
    ∀ (l₁ : Str) (l₂ : Str), (∀ c ∈ l₁, p c = true) →
      (l₁ ++ l₂).takeWhile p = l₁ ++ l₂.takeWhile p := by
  intro l₁
  induction l₁ with
  | nil => intro l₂ _; rfl
  | cons a t ih =>
    intro l₂ h
    rw [List.cons_append, List.takeWhile_cons, h a (List.mem_cons_self a t), if_pos rfl,
      List.cons_append, ih l₂ fun c hc => h c (List.mem_cons_of_mem a hc)]

theorem dropWhile_append_all {p : Char → Bool} :
    ∀ (l₁ : Str) (l₂ : Str), (∀ c ∈ l₁, p c = true) →
      (l₁ ++ l₂).dropWhile p = l₂.dropWhile p := by
  intro l₁
  induction l₁ with
  | nil => intro l₂ _; rfl
  | cons a t ih =>
    intro l₂ h
    rw [List.cons_append, List.dropWhile_cons, h a (List.mem_cons_self a t), if_pos rfl,
      ih l₂ fun c hc => h c (List.mem_cons_of_mem a hc)]

/-- C6 amended: every produced spec has a non-empty owner containing no `/`
and a non-empty repo; and every non-blank non-comment line consisting of a
non-blank slash-free owner part, one `/`, and a non-blank repo part — which
may itself contain further slashes — produces exactly that spec.  (Only the
first `/` splits; lines with no `/` or a blank part are skipped.) -/
theorem load_repo_lines_amended :
    (∀ (lines : List Str) (s : RepoSpec), s ∈ load_repo_lines lines →
        s.owner ≠ [] ∧ s.repo ≠ [] ∧ '/' ∉ s.owner)
    ∧ (∀ owner repo : Str, owner ≠ [] → repo ≠ [] →
        (∀ c ∈ owner, isPySpace c = false ∧ c ≠ '/') →
        (∀ c ∈ repo, isPySpace c = false) →
        owner.head? ≠ some '#' →
        load_repo_lines [owner ++ '/' :: repo] = [⟨owner, repo⟩]) := by
  constructor
  · intro lines
    induction lines with
    | nil => intro s hs; simp [load_repo_lines] at hs
    | cons rawLine rest ih =>
      intro s hs
      rw [load_repo_lines] at hs
      split at hs
      · exact ih s hs
      · split at hs
        · exact ih s hs
        · dsimp only at hs
          split at hs
          · rcases List.mem_cons.mp hs with rfl | hs'
            · rename_i hcond
              obtain ⟨ho, hr⟩ := Bool.and_eq_true .. ▸ hcond
              refine ⟨?_, ?_, ?_⟩
              · show pyStrip ((pyStrip rawLine).takeWhile notSlash) ≠ []
                intro he
                rw [he] at ho
                simp at ho
              · show pyStrip (((pyStrip rawLine).dropWhile notSlash).drop 1) ≠ []
                intro he
                rw [he] at hr
                simp at hr
              · show '/' ∉ pyStrip ((pyStrip rawLine).takeWhile notSlash)
                intro hmem
                have h2 := List.mem_takeWhile_imp (mem_of_mem_pyStrip hmem)
                simp [notSlash] at h2
            · exact ih s hs'
          · exact ih s hs
  · intro owner repo how hrw hoc hrc hhd
    obtain ⟨o, os, rfl⟩ := List.exists_cons_of_ne_nil how
    have hall : ∀ c ∈ (o :: os) ++ '/' :: repo, isPySpace c = false := by
      intro c hc
      rcases List.mem_append.mp hc with h | h
      · exact (hoc c h).1
      · rcases List.mem_cons.mp h with rfl | h
        · decide
        · exact hrc c h
    have hstrip : pyStrip ((o :: os) ++ '/' :: repo) = (o :: os) ++ '/' :: repo :=
      pyStrip_eq_self_of_all hall
    have howner : ∀ c ∈ (o :: os), notSlash c = true := by
      intro c hc
      simp [notSlash, (hoc c hc).2]
    have htake : ((o :: os) ++ '/' :: repo).takeWhile notSlash = o :: os := by
      rw [takeWhile_append_all (o :: os) ('/' :: repo) howner, List.takeWhile_cons,
        show notSlash '/' = false from by decide]
      simp
    have hdrop : ((o :: os) ++ '/' :: repo).dropWhile notSlash = '/' :: repo := by
      rw [dropWhile_append_all (o :: os) ('/' :: repo) howner, List.dropWhile_cons,
        show notSlash '/' = false from by decide]
      simp
    have hso : pyStrip (o :: os) = o :: os :=
      pyStrip_eq_self_of_all fun c hc => (hoc c hc).1
    have hsr : pyStrip repo = repo := pyStrip_eq_self_of_all hrc
    have hno : o ≠ '#' := fun h => hhd (by rw [List.head?_cons, h])
    rw [load_repo_lines]
    simp only [hstrip, htake, hdrop, List.drop_succ_cons, List.drop_zero, hso, hsr]
    rw [if_neg ?hc1, if_neg ?hc2, if_pos ?hc3]
    case hc1 =>
      simp [hno]
    case hc2 =>
      simp only [Bool.not_eq_true', Bool.not_eq_false]
      exact List.elem_iff.mpr (by simp)
    case hc3 =>
      simp only [Bool.and_eq_true, Bool.not_eq_true', List.isEmpty_eq_false]
      exact ⟨by simp, by simp [hrw]⟩
    rfl

/-- C6 amended, witnessed: a repo part containing a second slash is accepted
and split at the first slash only, and produced specs have the stated shape. -/
theorem load_repo_lines_amended_witness :
    load_repo_lines [str "acme/pay/ments"] = [⟨str "acme", str "pay/ments"⟩]
    ∧ ((⟨str "a", str "b"⟩ : RepoSpec).owner ≠ []
        ∧ (⟨str "a", str "b"⟩ : RepoSpec).repo ≠ []
        ∧ '/' ∉ (⟨str "a", str "b"⟩ : RepoSpec).owner) := by
  constructor
  · have h := load_repo_lines_amended.2 (str "acme") (str "pay/ments") (by decide) (by decide)
      (by decide) (by decide) (by decide)
    rw [show str "acme/pay/ments" = str "acme" ++ '/' :: str "pay/ments" from by decide]
    exact h
  · exact load_repo_lines_amended.1 [str "a/b"] ⟨str "a", str "b"⟩ (by decide)
/-! ## C3: rate-limited 403 handling -/

/-- The sleep performed by `handle_rate_limit` on a rate-limited 403 with a
parseable reset header. -/
theorem handle_rate_limit_sleep (r : Str) (now t : Int) (hr : r ≠ [])
    (hp : parseInt r = some t) :
    handle_rate_limit 403 ⟨some (str "0"), some r⟩ now = [max 1 (t - now + 1)] := by
  have hre : r.isEmpty = false := by simp [List.isEmpty_eq_false, hr]
  simp [handle_rate_limit, hp, hre]

/-- C3 amended: on a 403 whose rate-limit-remaining header is "0" with a
parseable reset timestamp, the client sleeps `max 1 (reset - now + 1)`
seconds — exactly 1 second when the reset is in the past — and then retries,
but the retry consumes one of the three loop attempts: the continuation is
the same loop with the attempt index advanced to 1 and the fuel reduced to 2. -/
theorem gh_post_json_rate_limit_amended {α : Type} (f : Nat → HttpOutcome α) (now t : Int)
    (r : Str) (bd : Option α) (hr : r ≠ []) (hp : parseInt r = some t)
    (h0 : f 0 = .response 403 ⟨some (str "0"), some r⟩ bd) :
    gh_post_json f now
      = ((gh_post_json_go f now 2 1).1, max 1 (t - now + 1) :: (gh_post_json_go f now 2 1).2)
    ∧ (t < now → max 1 (t - now + 1) = 1) := by
  constructor
  · show gh_post_json_go f now (2 + 1) 0 = _
    rw [gh_post_json_go, h0]
    simp [handle_rate_limit_sleep r now t hr hp]
  · intro hlt
    have h1 : t - now + 1 ≤ 1 := by omega
    exact max_eq_left h1

/-- C3 counterexample: three consecutive rate-limited 403 responses (reset
in the past) exhaust the attempt loop — the call sleeps 1 second three times
and returns the attempts-exhausted error `failed` — so the rate-limit retry
path does consume retry counts, contrary to the claim. -/
theorem gh_post_json_rate_limit_counterexample :
    gh_post_json (α := Option Payload)
        (fun _ => .response 403 ⟨some (str "0"), some (str "5")⟩ none) 100
      = ((none, some (str "failed")), [1, 1, 1]) := by decide

/-- C3 amended, witnessed: reset "50", now 100 (reset in the past) — the
call sleeps exactly 1 second, retries consuming the attempts, and after
three such responses returns `failed`. -/
theorem gh_post_json_rate_limit_amended_witness :
    gh_post_json (α := Option Payload)
        (fun _ => .response 403 ⟨some (str "0"), some (str "50")⟩ none) 100
      = ((none, some (str "failed")), [1, 1, 1]) := by
  have h := gh_post_json_rate_limit_amended (α := Option Payload)
    (fun _ => .response 403 ⟨some (str "0"), some (str "50")⟩ none) 100 50 (str "50") none
    (by decide) (by decide) rfl
  rw [h.1, h.2 (by decide)]
  decide

/-! ## C9: result codes of the API client -/

/-- C9 counterexample: a 403 without the rate-limit header maps to
`forbidden`, not `http_403`; and a 204 — a 2xx status — with an undecodable
body maps to `http_204`, not `invalid_json` (only 200 and 201 bodies are
parsed). -/
theorem gh_post_json_status_counterexample :
    (gh_post_json (α := Option Payload)
        (fun _ => .response 403 ⟨some (str "1"), none⟩ none) 0).1
      = (none, some (str "forbidden"))
    ∧ str "forbidden" ≠ str "http_403"
    ∧ (gh_post_json (α := Option Payload)
        (fun _ => .response 204 ⟨none, none⟩ none) 0).1
      = (none, some (str "http_204"))
    ∧ str "http_204" ≠ str "invalid_json" := by decide

/-- C9 amended: on the first attempt, 401 maps to `unauthorized`, 404 to
`not_found`, a 403 whose remaining header is not "0" to `forbidden`
(immediately, no sleep); a 200/201 with an undecodable body to
`invalid_json` and with a decodable body to the parsed payload with no
error; any other status below 500 (including 2xx codes other than 200/201)
maps immediately to `http_<status>`; and a persistent 5xx status is retried
twice with backoff sleeps of 1 and 2 seconds before `http_<status>`. -/
theorem gh_post_json_status_amended {α : Type} :
    (∀ (f : Nat → HttpOutcome α) (now : Int) hd bd, f 0 = .response 401 hd bd →
        gh_post_json f now = ((none, some (str "unauthorized")), []))
    ∧ (∀ (f : Nat → HttpOutcome α) (now : Int) hd bd, f 0 = .response 404 hd bd →
        gh_post_json f now = ((none, some (str "not_found")), []))
    ∧ (∀ (f : Nat → HttpOutcome α) (now : Int) hd bd, hd.remaining ≠ some (str "0") →
        f 0 = .response 403 hd bd →
        gh_post_json f now = ((none, some (str "forbidden")), []))
    ∧ (∀ (f : Nat → HttpOutcome α) (now : Int) (s : Nat) hd, (s = 200 ∨ s = 201) →
        f 0 = .response s hd none →
        gh_post_json f now = ((none, some (str "invalid_json")), []))
    ∧ (∀ (f : Nat → HttpOutcome α) (now : Int) (s : Nat) hd (j : α), (s = 200 ∨ s = 201) →
        f 0 = .response s hd (some j) →
        gh_post_json f now = ((some j, none), []))
    ∧ (∀ (f : Nat → HttpOutcome α) (now : Int) (s : Nat) hd bd,
        s ≠ 200 → s ≠ 201 → s ≠ 401 → s ≠ 403 → s ≠ 404 → s < 500 →
        f 0 = .response s hd bd →
        gh_post_json f now = ((none, some (str "http_" ++ natStr s)), []))
    ∧ (∀ (f : Nat → HttpOutcome α) (now : Int) (s : Nat) hd bd, 500 ≤ s →
        (∀ a, f a = .response s hd bd) →
        gh_post_json f now = ((none, some (str "http_" ++ natStr s)), [1, 2])) := by
  refine ⟨?_, ?_, ?_, ?_, ?_, ?_, ?_⟩
  · intro f now hd bd h0
    show gh_post_json_go f now (2 + 1) 0 = _
    rw [gh_post_json_go, h0]
    simp [handle_rate_limit]
  · intro f now hd bd h0
    show gh_post_json_go f now (2 + 1) 0 = _
    rw [gh_post_json_go, h0]
    simp [handle_rate_limit]
  · intro f now hd bd hrem h0
    show gh_post_json_go f now (2 + 1) 0 = _
    rw [gh_post_json_go, h0]
    have hb : (hd.remaining == some (str "0")) = false := beq_false_of_ne hrem
    simp [handle_rate_limit, hb]
  · intro f now s hd hs h0
    show gh_post_json_go f now (2 + 1) 0 = _
    rw [gh_post_json_go, h0]
    rcases hs with rfl | rfl <;> simp [handle_rate_limit]
  · intro f now s hd j hs h0
    show gh_post_json_go f now (2 + 1) 0 = _
    rw [gh_post_json_go, h0]
    rcases hs with rfl | rfl <;> simp [handle_rate_limit]
  · intro f now s hd bd h200 h201 h401 h403 h404 h500 h0
    show gh_post_json_go f now (2 + 1) 0 = _
    rw [gh_post_json_go, h0]
    have hge : ¬(500 ≤ s) := Nat.not_le.mpr h500
    simp [handle_rate_limit, h200, h201, h401, h403, h404, hge]
  · intro f now s hd bd h500 hf
    have h403 : s ≠ 403 := by omega
    have h200 : s ≠ 200 := by omega
    have h201 : s ≠ 201 := by omega
    have h401 : s ≠ 401 := by omega
    have h404 : s ≠ 404 := by omega
    show gh_post_json_go f now (2 + 1) 0 = _
    rw [gh_post_json_go, hf 0]
    simp only [h403, h200, h201, h401, h404, handle_rate_limit]
    rw [show (2 : Nat) = 1 + 1 from rfl, gh_post_json_go, hf 1]
    simp only [h403, h200, h201, h401, h404, handle_rate_limit]
    rw [show (1 : Nat) = 0 + 1 from rfl, gh_post_json_go, hf 2]
    simp [h403, h200, h201, h401, h404, h500, Nat.not_lt.mpr (by decide : (2:Nat) ≥ 2)]

/-- C9 amended, witnessed at concrete statuses 401, 418, 503 and a parsed
200 payload. -/
theorem gh_post_json_status_amended_witness :
    gh_post_json (α := Option Payload) (fun _ => .response 401 ⟨none, none⟩ none) 7
      = ((none, some (str "unauthorized")), [])
    ∧ gh_post_json (α := Option Payload) (fun _ => .response 418 ⟨none, none⟩ none) 7
      = ((none, some (str "http_418")), [])
    ∧ gh_post_json (α := Option Payload) (fun _ => .response 503 ⟨none, none⟩ none) 7
      = ((none, some (str "http_503")), [1, 2])
    ∧ gh_post_json (α := Option Payload)
        (fun _ => .response 200 ⟨none, none⟩ (some (some ⟨[], []⟩))) 7
      = ((some (some ⟨[], []⟩), none), []) := by
  refine ⟨?_, ?_, ?_, ?_⟩
  · exact (gh_post_json_status_amended (α := Option Payload)).1 _ 7 _ _ rfl
  · have h := (gh_post_json_status_amended (α := Option Payload)).2.2.2.2.2.1
      (fun _ => .response 418 ⟨none, none⟩ none) 7 418 ⟨none, none⟩ none
      (by decide) (by decide) (by decide) (by decide) (by decide) (by decide) rfl
    rw [h]; decide
  · have h := (gh_post_json_status_amended (α := Option Payload)).2.2.2.2.2.2
      (fun _ => .response 503 ⟨none, none⟩ none) 7 503 ⟨none, none⟩ none
      (by decide) (fun a => rfl)
    rw [h]; decide
  · exact (gh_post_json_status_amended (α := Option Payload)).2.2.2.2.1 _ 7 200 _ _
      (Or.inl rfl) rfl
/-! ## C1: one output record per input spec, in order, degrading on failure -/

theorem chunksAux_flatten {α : Type} (n : Nat) (hn : 0 < n) :
    ∀ (fuel : Nat) (l : List α), l.length ≤ fuel → (chunksAux n fuel l).flatten = l := by
  intro fuel
  induction fuel with
  | zero =>
    intro l hl
    have : l = [] := List.eq_nil_of_length_eq_zero (Nat.le_zero.mp hl)
    subst this
    rfl
  | succ fu ih =>
    intro l hl
    cases l with
    | nil => rfl
    | cons a t =>
      rw [chunksAux, List.flatten_cons, ih ((a :: t).drop n) ?_, List.take_append_drop]
      rw [List.length_drop]
      have : (a :: t).length ≤ fu + 1 := hl
      have hlen : (a :: t).length = t.length + 1 := rfl
      omega

theorem chunks_flatten {α : Type} (n : Nat) (hn : 0 < n) (l : List α) :
    (chunks n l).flatten = l :=
  chunksAux_flatten n hn l.length l (Nat.le_refl _)

theorem flatMap_map_length {α β : Type} (batches : List (List α)) (g : List α → α → β) :
    (batches.flatMap fun c => c.map (g c)).length = batches.flatten.length := by
  induction batches with
  | nil => rfl
  | cons c rest ih =>
    rw [List.flatMap_cons, List.flatten_cons, List.length_append, List.length_append,
      List.length_map, ih]

theorem flatMap_congr {α β : Type} {f g : α → List β} :
    ∀ (l : List α), (∀ c ∈ l, f c = g c) → l.flatMap f = l.flatMap g := by
  intro l
  induction l with
  | nil => intro _; rfl
  | cons c rest ih =>
    intro h
    rw [List.flatMap_cons, List.flatMap_cons, h c (List.mem_cons_self c rest),
      ih fun d hd => h d (List.mem_cons_of_mem c hd)]

/-- Lookup in an association list whose bindings for key `k` all carry the
same value. -/
theorem lookup_of_forall_mem {m : List (Str × Entry)} {k : Str} {v₀ : Entry}
    (hall : ∀ v, (k, v) ∈ m → v = v₀) (hex : ∃ v, (k, v) ∈ m) :
    m.lookup k = some v₀ := by
  induction m with
  | nil => obtain ⟨v, hv⟩ := hex; simp at hv
  | cons p rest ih =>
    obtain ⟨k₁, v₁⟩ := p
    by_cases hk : k = k₁
    · subst hk
      have hl : List.lookup k ((k, v₁) :: rest) = some v₁ := by simp [List.lookup]
      rw [hl, hall v₁ (List.mem_cons_self _ _)]
    · have hbk : (k == k₁) = false := beq_false_of_ne hk
      have hl : List.lookup k ((k₁, v₁) :: rest) = List.lookup k rest := by
        simp [List.lookup, hbk]
      rw [hl]
      apply ih
      · intro v hv
        exact hall v (List.mem_cons_of_mem _ hv)
      · obtain ⟨v, hv⟩ := hex
        rcases List.mem_cons.mp hv with heq | hv2
        · exact absurd (congrArg Prod.fst heq) hk
        · exact ⟨v, hv2⟩

/-- Every binding produced by the error-dict fold is an identity-plus-error
record for its own key. -/
theorem repo_error_dict_pairs (e : Str) :
    ∀ (l : List RepoSpec) (acc : List (Str × Entry)),
      (∀ p ∈ acc, p.2 = Entry.err p.1 e) →
      ∀ p ∈ List.foldl (fun a spec => (spec.full_name, Entry.err spec.full_name e) :: a) acc l,
        p.2 = Entry.err p.1 e := by
  intro l
  induction l with
  | nil => intro acc h p hp; exact h p hp
  | cons spec rest ih =>
    intro acc h p hp
    rw [List.foldl_cons] at hp
    refine ih _ ?_ p hp
    intro q hq
    rcases List.mem_cons.mp hq with rfl | hq'
    · rfl
    · exact h q hq'

theorem foldl_cons_mem_mono (e : Str) :
    ∀ (l : List RepoSpec) (acc : List (Str × Entry)) (p : Str × Entry), p ∈ acc →
      p ∈ List.foldl (fun a spec => (spec.full_name, Entry.err spec.full_name e) :: a) acc l := by
  intro l
  induction l with
  | nil => intro acc p hp; exact hp
  | cons spec rest ih =>
    intro acc p hp
    rw [List.foldl_cons]
    exact ih _ p (List.mem_cons_of_mem _ hp)

/-- Every spec of the batch has a binding in the error dict. -/
theorem repo_error_dict_mem (e : Str) :
    ∀ (l : List RepoSpec) (acc : List (Str × Entry)) (spec : RepoSpec), spec ∈ l →
      (spec.full_name, Entry.err spec.full_name e)
        ∈ List.foldl (fun a s => (s.full_name, Entry.err s.full_name e) :: a) acc l := by
  intro l
  induction l with
  | nil => intro acc spec hs; simp at hs
  | cons s0 rest ih =>
    intro acc spec hs
    rw [List.foldl_cons]
    rcases List.mem_cons.mp hs with rfl | hs'
    · exact foldl_cons_mem_mono e rest _ _ (List.mem_cons_self _ _)
    · exact ih _ spec hs'

/-- A unit fetch failure turns the whole batch into error records keyed by
full name. -/
theorem bundle_error (e : Str) (he : e ≠ []) (chunk : List RepoSpec) :
    get_repo_bundle_graphql (none, some e) chunk = repo_error_dict chunk e := by
  have h0 : get_repo_bundle_graphql (none, some e) chunk
      = repo_error_dict chunk (errVal (some e)) := rfl
  have hie : e.isEmpty = false := by simp [List.isEmpty_eq_false, he]
  rw [h0, show errVal (some e) = e from by simp [errVal, hie]]

/-- Looking a spec of the batch up in the error dict yields its degraded
record. -/
theorem repo_error_dict_lookup (e : Str) (chunk : List RepoSpec) (spec : RepoSpec)
    (hs : spec ∈ chunk) :
    (repo_error_dict chunk e).lookup spec.full_name
      = some (Entry.err spec.full_name e) := by
  apply lookup_of_forall_mem
  · intro v hv
    exact repo_error_dict_pairs e chunk [] (by simp) _ hv
  · exact ⟨_, repo_error_dict_mem e chunk [] spec hs⟩

theorem flatMap_map_eq_map_flatten {α β : Type} (g : α → β) :
    ∀ (l : List (List α)), (l.flatMap fun c => c.map g) = l.flatten.map g := by
  intro l
  induction l with
  | nil => rfl
  | cons c rest ih => rw [List.flatMap_cons, List.flatten_cons, List.map_append, ih]

/-- C1: the output `repos` list has exactly one record per input RepoSpec
(duplicates included), in input order — its length always equals the input
length, for every batch size and every fetch behaviour — and when the
batched fetch fails as a unit, each spec degrades to its identity-plus-error
record instead of being dropped. -/
theorem main_repos_spec (fetch : List RepoSpec → Option (Option Payload) × Option Str)
    (b : Nat) (specs : List RepoSpec) (hb : 0 < b) :
    (main_repos fetch b specs).length = specs.length
    ∧ (∀ e : Str, e ≠ [] → (∀ chunk, fetch chunk = (none, some e)) →
        main_repos fetch b specs = specs.map fun spec => Entry.err spec.full_name e) := by
  have hflat : (chunks b specs).flatten = specs := chunks_flatten b hb specs
  constructor
  · unfold main_repos
    rw [flatMap_map_length (chunks b specs) fun chunk spec =>
      ((get_repo_bundle_graphql (fetch chunk) chunk).lookup spec.full_name).getD
        (Entry.err spec.full_name (str "unknown")), hflat]
  · intro e he hf
    unfold main_repos
    have hstep : (chunks b specs).flatMap (fun chunk =>
        chunk.map fun spec =>
          ((get_repo_bundle_graphql (fetch chunk) chunk).lookup spec.full_name).getD
            (Entry.err spec.full_name (str "unknown")))
        = (chunks b specs).flatMap (fun chunk =>
            chunk.map fun spec => Entry.err spec.full_name e) := by
      apply flatMap_congr
      intro chunk _
      apply List.map_congr_left
      intro spec hspec
      rw [hf chunk, bundle_error e he chunk, repo_error_dict_lookup e chunk spec hspec]
      rfl
    rw [hstep]
    rw [flatMap_map_eq_map_flatten (fun spec => Entry.err spec.full_name e) (chunks b specs),
      hflat]

/-- C1 witnessed: three specs, batch size 2, every batched call failing with
a network error — three degraded records come back, in input order. -/
theorem main_repos_spec_witness :
    main_repos (fun _ => (none, some (str "network_error"))) 2
      [⟨str "a", str "x"⟩, ⟨str "b", str "y"⟩, ⟨str "c", str "z"⟩]
      = [Entry.err (str "a/x") (str "network_error"),
         Entry.err (str "b/y") (str "network_error"),
         Entry.err (str "c/z") (str "network_error")] := by
  have h := (main_repos_spec (fun _ => (none, some (str "network_error"))) 2
    [⟨str "a", str "x"⟩, ⟨str "b", str "y"⟩, ⟨str "c", str "z"⟩] (by decide)).2
    (str "network_error") (by decide) (fun _ => rfl)
  rw [h]
  decide
/-! ## C10: extractors run on the untruncated text -/

/-- Names-only mirror of the `infer_depends_on` loop, for reasoning about the
target column without evaluating evidence snippets. -/
def infer_targets_go (repo : Str) : List Str → List (Str × Str) → List Str
  | [], _ => []
  | n :: rest, seen =>
    if !(str "_SERVICE_URL").isSuffixOf n then infer_targets_go repo rest seen
    else
      if seen.contains (repo, service_target n) || service_target n == repo then
        infer_targets_go repo rest seen
      else service_target n :: infer_targets_go repo rest ((repo, service_target n) :: seen)

theorem infer_go_targets (spec : RepoSpec) (rp rt : Option Str) :
    ∀ (envs : List EnvVar) (seen : List (Str × Str)),
      (infer_depends_on_go spec rp rt envs seen).map DependsOn.target
        = infer_targets_go spec.repo (envs.map EnvVar.name) seen := by
  intro envs
  induction envs with
  | nil => intro seen; rfl
  | cons env rest ih =>
    intro seen
    by_cases h1 : (str "_SERVICE_URL").isSuffixOf env.name
    · by_cases h2 : (spec.repo, service_target env.name) ∈ seen
        ∨ service_target env.name = spec.repo
      · have s1 : infer_depends_on_go spec rp rt (env :: rest) seen
            = infer_depends_on_go spec rp rt rest seen := by
          simp [infer_depends_on_go, h1, h2]
        have s2 : infer_targets_go spec.repo (env.name :: rest.map EnvVar.name) seen
            = infer_targets_go spec.repo (rest.map EnvVar.name) seen := by
          simp [infer_targets_go, h1, h2]
        rw [List.map_cons, s1, s2, ih seen]
      · rw [not_or] at h2
        have s1 : infer_depends_on_go spec rp rt (env :: rest) seen
            = { target := service_target env.name, type := str "http"
                confidence := str "medium"
                evidence := make_evidence rp rt env.name }
              :: infer_depends_on_go spec rp rt rest
                  ((spec.repo, service_target env.name) :: seen) := by
          simp [infer_depends_on_go, h1, h2.1, h2.2]
        have s2 : infer_targets_go spec.repo (env.name :: rest.map EnvVar.name) seen
            = service_target env.name
              :: infer_targets_go spec.repo (rest.map EnvVar.name)
                  ((spec.repo, service_target env.name) :: seen) := by
          simp [infer_targets_go, h1, h2.1, h2.2]
        rw [List.map_cons, s1, s2, List.map_cons, ih]
    · have s1 : infer_depends_on_go spec rp rt (env :: rest) seen
          = infer_depends_on_go spec rp rt rest seen := by
        simp [infer_depends_on_go, h1]
      have s2 : infer_targets_go spec.repo (env.name :: rest.map EnvVar.name) seen
          = infer_targets_go spec.repo (rest.map EnvVar.name) seen := by
        simp [infer_targets_go, h1]
      rw [List.map_cons, s1, s2, ih seen]

/-- C10 scenario: a README whose only interesting token sits after position
200,000 (200,001 spaces, then `ALPHA_SERVICE_URL`). -/
def c10_big : Str := List.replicate 200001 ' ' ++ str "ALPHA_SERVICE_URL"

/-- C10 scenario: a response node carrying that README as `README.md`. -/
def c10_node : RepoNode :=
  { nameWithOwner := some (str "acme/app"), primaryLanguage := none
    blobs := [(str "readme_md", some c10_big)] }

/-- C10: the heuristic extractors run on the full untruncated README — the
`ALPHA_SERVICE_URL` token that starts after position 200,000 still yields an
extracted environment variable and an inferred dependency edge — while the
stored files field holds only the truncated text (200,000 characters plus
the marker, flagged), on which the same extraction would find nothing. -/
theorem derived_from_untruncated_text :
    ((build_repo_entry ⟨str "acme", str "app"⟩ c10_node).derived.env_vars.map EnvVar.name
        = [str "ALPHA_SERVICE_URL"])
    ∧ ((build_repo_entry ⟨str "acme", str "app"⟩ c10_node).derived.depends_on.map
        DependsOn.target = [str "alpha-service"])
    ∧ (build_repo_entry ⟨str "acme", str "app"⟩ c10_node).files.readme
        = some ⟨str "README.md", List.replicate 200000 ' ' ++ truncMarker, true⟩
    ∧ (extract_env_vars (some (str "README.md"))
        (some (List.replicate 200000 ' ' ++ truncMarker))).map EnvVar.name = [] := by
  have hmd : extract_blob_text c10_node (str "readme_md") = some c10_big := rfl
  have hrst : extract_blob_text c10_node (str "readme_rst") = none := rfl
  have htxt : extract_blob_text c10_node (str "readme_txt") = none := rfl
  have hco1 : extract_blob_text c10_node (str "codeowners_root") = none := rfl
  have hco2 : extract_blob_text c10_node (str "codeowners_gh") = none := rfl
  have hca1 : extract_blob_text c10_node (str "catalog_yaml") = none := rfl
  have hca2 : extract_blob_text c10_node (str "catalog_yml") = none := rfl
  have hoa1 : extract_blob_text c10_node (str "openapi_yaml") = none := rfl
  have hoa2 : extract_blob_text c10_node (str "openapi_yml") = none := rfl
  have hoa3 : extract_blob_text c10_node (str "swagger_yaml") = none := rfl
  have hoa4 : extract_blob_text c10_node (str "swagger_yml") = none := rfl
  have hoa5 : extract_blob_text c10_node (str "api_openapi_yaml") = none := rfl
  have hoa6 : extract_blob_text c10_node (str "api_openapi_yml") = none := rfl
  have hoa7 : extract_blob_text c10_node (str "api_swagger_yaml") = none := rfl
  have hoa8 : extract_blob_text c10_node (str "api_swagger_yml") = none := rfl
  have hwr : wordRuns c10_big = [str "ALPHA_SERVICE_URL"] := by
    show wordRuns (List.replicate 200001 ' ' ++ str "ALPHA_SERVICE_URL") = _
    rw [wordRuns_replicate_space]
    decide
  have hstrip : (pyStrip c10_big).isEmpty = false := by
    show (pyStrip (List.replicate 200001 ' ' ++ str "ALPHA_SERVICE_URL")).isEmpty = false
    rw [pyStrip_replicate_space]
    decide
  have hnames : env_var_names c10_big = [str "ALPHA_SERVICE_URL"] := by
    unfold env_var_names
    rw [hwr]
    decide
  have henvmap : (extract_env_vars (some (str "README.md")) (some c10_big)).map EnvVar.name
      = [str "ALPHA_SERVICE_URL"] := by
    rw [extract_env_vars_names, hnames]
  have henv : (build_repo_entry ⟨str "acme", str "app"⟩ c10_node).derived.env_vars
      = extract_env_vars (some (str "README.md")) (some c10_big) := by
    simp only [build_repo_entry, hmd, hrst, htxt, hco1, hco2, hca1, hca2, hoa1, hoa2, hoa3,
      hoa4, hoa5, hoa6, hoa7, hoa8, first_present]
  have hdep : (build_repo_entry ⟨str "acme", str "app"⟩ c10_node).derived.depends_on
      = infer_depends_on ⟨str "acme", str "app"⟩
          (extract_env_vars (some (str "README.md")) (some c10_big))
          (some (str "README.md")) (some c10_big) := by
    simp only [build_repo_entry, hmd, hrst, htxt, hco1, hco2, hca1, hca2, hoa1, hoa2, hoa3,
      hoa4, hoa5, hoa6, hoa7, hoa8, first_present]
  have hbigne : c10_big.isEmpty = false := by
    rw [List.isEmpty_eq_false]
    show List.replicate 200001 ' ' ++ str "ALPHA_SERVICE_URL" ≠ []
    intro h
    have hlc := congrArg List.length h
    rw [List.length_append, List.length_replicate, List.length_nil] at hlc
    exact absurd hlc (by decide)
  have hlen : c10_big.length = 200018 := by
    show (List.replicate 200001 ' ' ++ str "ALPHA_SERVICE_URL").length = _
    rw [List.length_append, List.length_replicate]
    decide
  have htake : c10_big.take TRUNC_LIMIT = List.replicate 200000 ' ' := by
    show (List.replicate 200001 ' ' ++ str "ALPHA_SERVICE_URL").take TRUNC_LIMIT = _
    rw [List.take_append_eq_append_take, List.take_replicate, List.length_replicate,
      show min TRUNC_LIMIT 200001 = 200000 from by decide,
      show TRUNC_LIMIT - 200001 = 0 from by decide, List.take_zero, List.append_nil]
  have hfile : (build_repo_entry ⟨str "acme", str "app"⟩ c10_node).files.readme
      = truncate_file (mk_file (some (str "README.md")) (some c10_big)) := by
    simp only [build_repo_entry, hmd, hrst, htxt, hco1, hco2, hca1, hca2, hoa1, hoa2, hoa3,
      hoa4, hoa5, hoa6, hoa7, hoa8, first_present]
  refine ⟨?_, ?_, ?_, ?_⟩
  · rw [henv, henvmap]
  · rw [hdep]
    unfold infer_depends_on
    rw [infer_go_targets, henvmap]
    decide
  · rw [hfile]
    have hmk : mk_file (some (str "README.md")) (some c10_big)
        = some ⟨str "README.md", c10_big, false⟩ := by
      simp [mk_file, hbigne]
    rw [hmk]
    have ht := (truncate_file_spec ⟨str "README.md", c10_big, false⟩).1
      (by rw [show (⟨str "README.md", c10_big, false⟩ : FileEntry).text = c10_big from rfl,
            hlen]; decide)
    rw [ht, show (⟨str "README.md", c10_big, false⟩ : FileEntry).text = c10_big from rfl,
      htake]
  · rw [extract_env_vars_names]
    unfold env_var_names
    rw [wordRuns_replicate_space]
    decide
